import Mathlib

/-!
Verification of the concurrent performance-testing engine of
`mesh-performance-test` (`data_test.py`), as a shallow embedding in Lean 4.

Numbers that are Python floats are modelled as exact rationals (`ℚ`); Python
exceptions are modelled by `Option`-valued functions (`none` = the call
raises).  Python's `statistics.mean` is exact summation divided by length;
`statistics.quantiles` (default `method='exclusive'`) is embedded below as
`quantileExclusive`, transcribed from CPython's `Lib/statistics.py`.
-/

/-- A per-request timing record, as built by `make_request`
(`data_test.py` lines 109-130).  Optional dict keys are `Option` fields. -/
structure TimingRecord where
  success : Bool
  response_time : ℚ
  status_code : Option ℕ
  error : Option String
  timestamp : ℚ
  request_id : Option ℕ
deriving DecidableEq

/-- The `PerformanceMetrics` dataclass (`data_test.py` lines 14-30). -/
structure PerformanceMetrics where
  endpoint : String
  total_requests : ℕ
  successful_requests : ℕ
  failed_requests : ℕ
  avg_response_time : ℚ
  min_response_time : ℚ
  max_response_time : ℚ
  p95_response_time : ℚ
  p99_response_time : ℚ
  throughput : ℚ
  success_rate : ℚ
  error_rate : ℚ
  errors : List String
  block_index : Option ℤ
  individual_timings : Option (List TimingRecord)
deriving DecidableEq

/-- The `AggregatedMetrics` dataclass (`data_test.py` lines 33-47). -/
structure AggregatedMetrics where
  endpoint : String
  block_range : Option (ℤ × ℤ)
  total_blocks_tested : ℕ
  total_requests_all_blocks : ℕ
  successful_requests_all_blocks : ℕ
  failed_requests_all_blocks : ℕ
  avg_response_time_all_blocks : ℚ
  min_response_time_all_blocks : ℚ
  max_response_time_all_blocks : ℚ
  throughput_all_blocks : ℚ
  success_rate_all_blocks : ℚ
  error_rate_all_blocks : ℚ
  block_metrics : List PerformanceMetrics
deriving DecidableEq

/-- Outcome of the single HTTP interaction performed inside `make_request`'s
`try` block: either the response arrives (with an HTTP status, at wall-clock
time `endTime`), or some exception is raised (with message `str(e)`,
at wall-clock time `endTime`). -/
inductive RequestOutcome where
  | ok (status : ℕ) (endTime : ℚ)
  | exn (msg : String) (endTime : ℚ)
deriving DecidableEq

/-- Embedding of `make_request` (`data_test.py` lines 90-130): the record built for each
outcome.  The function is total: every outcome, including an exception,
yields a `TimingRecord` — this is the embedding of "never raises to the
caller".  `request_id` is attached only when the caller passed one. -/
def make_request (start_time : ℚ) (request_id : Option ℕ)
    (o : RequestOutcome) : TimingRecord :=
  match o with
  | .ok st et =>
      { success := true
        response_time := et - start_time
        status_code := some st
        error := none
        timestamp := start_time
        request_id := request_id }
  | .exn msg et =>
      { success := false
        response_time := et - start_time
        status_code := none
        error := some msg
        timestamp := start_time
        request_id := request_id }

/-- Python's builtin `min` over a list (left fold); `none` would be a
`ValueError`, but the sources only call it on provably nonempty data, so the
empty case here mirrors an unused branch and is irrelevant to the claims. -/
def pyMin (l : List ℚ) : ℚ :=
  match l with
  | [] => 0
  | x :: rest => rest.foldl min x

/-- Python's builtin `max` over a list (left fold). -/
def pyMax (l : List ℚ) : ℚ :=
  match l with
  | [] => 0
  | x :: rest => rest.foldl max x

/-- Python's builtin `min` over a possibly-empty iterable: `none` models the
`ValueError` raised on an empty argument. -/
def pyMinOpt (l : List ℚ) : Option ℚ :=
  match l with
  | [] => none
  | x :: rest => some (rest.foldl min x)

/-- Python's builtin `max` over a possibly-empty iterable: `none` models the
`ValueError` raised on an empty argument. -/
def pyMaxOpt (l : List ℚ) : Option ℚ :=
  match l with
  | [] => none
  | x :: rest => some (rest.foldl max x)

/-- Embedding of `statistics.mean`: exact sum divided by length (only ever applied to
nonempty lists in the embedded code paths). -/
def pyMean (l : List ℚ) : ℚ := l.sum / l.length

/-- One cut point of CPython's `statistics.quantiles(data, n=n)` with the
default `method='exclusive'`, applied to already-sorted data `s`:
`j = clamp(i*(ld+1)//n, 1, ld-1)`, `delta = i*(ld+1) - j*n`, and the result
interpolates `(s[j-1]*(n-delta) + s[j]*delta)/n`. -/
def cutPoint (s : List ℚ) (n i : ℕ) : ℚ :=
  let ld := s.length
  let m := ld + 1
  let jraw := i * m / n
  let j := if jraw < 1 then 1 else if ld - 1 < jraw then ld - 1 else jraw
  let delta : ℤ := (i * m : ℤ) - (j * n : ℤ)
  (s.getD (j - 1) 0 * ((n : ℚ) - (delta : ℚ)) + s.getD j 0 * (delta : ℚ)) / (n : ℚ)

/-- Embedding of `statistics.quantiles(data, n=n)[i-1]` (exclusive method): sort the data,
then take cut point `i` of `n`.  The source uses `[18]` of `n=20` (i = 19)
for p95 and `[98]` of `n=100` (i = 99) for p99. -/
def quantileExclusive (data : List ℚ) (n i : ℕ) : ℚ :=
  cutPoint (data.insertionSort (· ≤ ·)) n i

/-- The rank-based percentile the spec prescribes in its §4.2:
`sorted[ceil(p*n) - 1]` for `n` samples.  This is a spec-side definition,
kept separate so it can be compared against what the source computes. -/
def rankPercentile (xs : List ℚ) (p : ℚ) : ℚ :=
  (xs.insertionSort (· ≤ ·)).getD (Nat.ceil (p * xs.length) - 1) 0

/-- The successful-response-time samples of a measurement run:
`test_endpoint_concurrency` dispatches exactly `total_requests` calls
(`tasks = [bounded_request(i) for i in range(self.total_requests)]`), so the
result list is the image of `range T` under the per-request outcome map
`ex`; the samples are the `response_time`s of the successful ones. -/
def successTimes (T : ℕ) (ex : ℕ → TimingRecord) : List ℚ :=
  (((List.range T).map ex).filter (·.success)).map (·.response_time)

/-- The statistics block of `test_endpoint_concurrency`
(`data_test.py` lines 187-204): `(avg, min, max, p95, p99)`.
With no successful sample every statistic is 0; with a single sample the
percentiles fall back to `response_times[0]`; otherwise
`statistics.quantiles` is used. -/
def computeStats (response_times : List ℚ) : ℚ × ℚ × ℚ × ℚ × ℚ :=
  if response_times = [] then (0, 0, 0, 0, 0)
  else
    (pyMean response_times,
     pyMin response_times,
     pyMax response_times,
     if 1 < response_times.length then quantileExclusive response_times 20 19
     else response_times.headD 0,
     if 1 < response_times.length then quantileExclusive response_times 100 99
     else response_times.headD 0)

/-- The error-string extraction of one failed record:
`[r["error"] for r in failed_results if r["error"]]` keeps only truthy
values, i.e. drops `None` and the empty string. -/
def errString (r : TimingRecord) : Option String :=
  match r.error with
  | some s => if s = "" then none else some s
  | none => none

/-- Embedding of `test_endpoint_concurrency` (`data_test.py` lines 141-227), from the
point where all request outcomes are in hand.  `ex i` is the
`TimingRecord` of dispatched request `i`; `total_time` is the measured
wall-clock window.  `none` models the `ZeroDivisionError` raised while
building the return value when `total_time = 0` (throughput) or
`total_requests = 0` (success/error rate). -/
def test_endpoint_concurrency (T : ℕ) (verbose : Bool) (path : String)
    (bi : Option ℤ) (ex : ℕ → TimingRecord) (total_time : ℚ) :
    Option PerformanceMetrics :=
  let results := (List.range T).map ex
  let successful_results := results.filter (·.success)
  let failed_results := results.filter (fun r => !r.success)
  let response_times := successTimes T ex
  let errors := failed_results.filterMap errString
  let stats := computeStats response_times
  if total_time = 0 ∨ T = 0 then none
  else some
    { endpoint := path
      total_requests := T
      successful_requests := successful_results.length
      failed_requests := failed_results.length
      avg_response_time := stats.1
      min_response_time := stats.2.1
      max_response_time := stats.2.2.1
      p95_response_time := stats.2.2.2.1
      p99_response_time := stats.2.2.2.2
      throughput := (successful_results.length : ℚ) / total_time
      success_rate := (successful_results.length : ℚ) / (T : ℚ) * 100
      error_rate := (failed_results.length : ℚ) / (T : ℚ) * 100
      errors := errors.dedup
      block_index := bi
      individual_timings := if verbose then some results else none }

/-- The `all_response_times` list of `aggregate_block_metrics`
(`data_test.py` lines 237-240): each block's average response time
replicated once per successful request — but only for blocks whose average
is strictly positive. -/
def allResponseTimes (block_metrics : List PerformanceMetrics) : List ℚ :=
  block_metrics.foldr
    (fun m acc =>
      (if 0 < m.avg_response_time then
        List.replicate m.successful_requests m.avg_response_time
      else []) ++ acc) []

/-- Embedding of `aggregate_block_metrics` (`data_test.py` lines 229-271).  `none` models
an uncaught exception: `min()` over an empty generator when no block has a
strictly positive `min_response_time` (a `ValueError`), and, on an empty
input list, `max()` / `statistics.mean` raising.  All other fields are
total computations, performed before the fallible ones in the source. -/
def aggregate_block_metrics (path : String) (block_start block_end : ℤ)
    (block_metrics : List PerformanceMetrics) : Option AggregatedMetrics :=
  let total_requests := (block_metrics.map (·.total_requests)).sum
  let total_successful := (block_metrics.map (·.successful_requests)).sum
  let total_failed := (block_metrics.map (·.failed_requests)).sum
  let all_response_times := allResponseTimes block_metrics
  let avg_response_time :=
    if all_response_times = [] then 0 else pyMean all_response_times
  let minOpt :=
    if block_metrics = [] then some 0
    else pyMinOpt ((block_metrics.filter
      (fun m => 0 < m.min_response_time)).map (·.min_response_time))
  let maxOpt := pyMaxOpt (block_metrics.map (·.max_response_time))
  let thrOpt :=
    if block_metrics = [] then none
    else some (pyMean (block_metrics.map (·.throughput)))
  match minOpt, maxOpt, thrOpt with
  | some mn, some mx, some th =>
    some
      { endpoint := path
        block_range := some (block_start, block_end)
        total_blocks_tested := block_metrics.length
        total_requests_all_blocks := total_requests
        successful_requests_all_blocks := total_successful
        failed_requests_all_blocks := total_failed
        avg_response_time_all_blocks := avg_response_time
        min_response_time_all_blocks := mn
        max_response_time_all_blocks := mx
        throughput_all_blocks := th
        success_rate_all_blocks :=
          if 0 < total_requests then
            (total_successful : ℚ) / (total_requests : ℚ) * 100
          else 0
        error_rate_all_blocks :=
          if 0 < total_requests then
            (total_failed : ℚ) / (total_requests : ℚ) * 100
          else 0
        block_metrics := block_metrics }
  | _, _, _ => none

/-- The coarse outcome of one CLI invocation of `main()`
(`data_test.py` lines 459-506): the run succeeds, the configuration file is
missing (`FileNotFoundError`), or some other exception reaches the
top-level handler. -/
inductive RunOutcome where
  | success
  | configNotFound
  | otherError (msg : String)
deriving DecidableEq

/-- The value `main()` returns (`data_test.py` lines 499-506):
0 on success, 1 on a missing configuration file, 1 on any other caught
failure. -/
def mainReturn (o : RunOutcome) : ℕ :=
  match o with
  | .success => 0
  | .configNotFound => 1
  | .otherError _ => 1

/-- The process exit code of the script (`data_test.py` line 510):
`exit_code = asyncio.run(main())` binds the returned value but never passes
it to `sys.exit`, so the interpreter always terminates with status 0; the
bound value is discarded. -/
def scriptExitCode (o : RunOutcome) : ℕ :=
  let exit_code := mainReturn o
  (fun _ => 0) exit_code

/-- A JSON-like Python value: a dict (association list with unique keys in
the source), a list, or a scalar.  Endpoint payloads are trees of these. -/
inductive JsonVal where
  | obj : List (String × JsonVal) → JsonVal
  | arr : List JsonVal → JsonVal
  | int : ℤ → JsonVal
  | str : String → JsonVal
  | bool : Bool → JsonVal
  | null : JsonVal

/-- Whether a dict has an `"index"` key (`"index" in d["block_identifier"]`). -/
def hasIndexKey (es : List (String × JsonVal)) : Bool :=
  es.any (fun kv => kv.1 == "index")

mutual

/-- The effect of `update_dict` (`data_test.py` lines 74-85) on the entries
of one dict, phrased structurally.  The flag `ow` records that this dict was
the value of a `block_identifier` key containing `"index"`, so the caller's
fixup step has overwritten its `"index"` entry with `block_index` before the
traversal loop reached it (the original value at `"index"` is discarded,
exactly as in-place assignment discards it). -/
def updObj (i : ℤ) (ow : Bool) : List (String × JsonVal) →
    List (String × JsonVal)
  | [] => []
  | (k, v) :: rest => updEntry i ow k v :: updObj i ow rest

/-- One dict entry under `update_dict`: the fixup rewrites
`block_identifier.index`, the loop recurses into dict values and into dict
items of list values; scalars and non-dict list items are untouched. -/
def updEntry (i : ℤ) (ow : Bool) (k : String) (v : JsonVal) :
    String × JsonVal :=
  if ow = true ∧ k = "index" then (k, JsonVal.int i)
  else
    match v with
    | .obj inner =>
        if k = "block_identifier" ∧ hasIndexKey inner = true then
          (k, .obj (updObj i true inner))
        else (k, .obj (updObj i false inner))
    | .arr items => (k, .arr (updItems i items))
    | .int n => (k, .int n)
    | .str s => (k, .str s)
    | .bool b => (k, .bool b)
    | .null => (k, .null)

/-- The loop `for item in value: if isinstance(item, dict): update_dict(item)`:
only dict items of a list are visited; anything else (including nested
lists) is passed through unchanged. -/
def updItems (i : ℤ) : List JsonVal → List JsonVal
  | [] => []
  | .obj es :: rest => .obj (updObj i false es) :: updItems i rest
  | v :: rest => v :: updItems i rest

end

/-- Embedding of `update_block_index` (`data_test.py` lines 68-88): deep-copy the payload
and run `update_dict` over the copy.  In this pure embedding the deep copy
is the identity on values and non-mutation of the original payload holds by
construction: the result is a fresh tree and the argument is untouched. -/
def update_block_index (payload : List (String × JsonVal)) (i : ℤ) :
    List (String × JsonVal) :=
  updObj i false payload

/-- The dicts of a payload tree visited by `update_dict`'s traversal: the
top-level dict itself, dicts that are values of entries, and dicts that are
items of list values — i.e. every dict reached through nested mappings or
through sequences of mappings. -/
inductive ReachesObj : List (String × JsonVal) → List (String × JsonVal) → Prop
  | refl (es : List (String × JsonVal)) : ReachesObj es es
  | viaObj {es tgt : List (String × JsonVal)} {k : String}
      {inner : List (String × JsonVal)}
      (hmem : (k, JsonVal.obj inner) ∈ es)
      (h : ReachesObj inner tgt) : ReachesObj es tgt
  | viaArr {es tgt : List (String × JsonVal)} {k : String}
      {items : List JsonVal} {inner : List (String × JsonVal)}
      (hmem : (k, JsonVal.arr items) ∈ es)
      (hitem : JsonVal.obj inner ∈ items)
      (h : ReachesObj inner tgt) : ReachesObj es tgt

/-- A scheduler state of the measurement phase: how many of the
`total_requests` coroutines have started (they start in submission order
`0, 1, ...`), which ones are queued on the semaphore (FIFO), which are in
flight (holding a slot, i.e. inside `make_request`), the admission log, and
the finished ones. -/
structure SchedState where
  nextTask : ℕ
  queue : List ℕ
  inFlight : List ℕ
  admitted : List ℕ
  finished : List ℕ
deriving DecidableEq

/-- Modelled from the spec: the asyncio event loop and
`asyncio.Semaphore(concurrent_requests)` of the measurement phase
(`data_test.py` lines 165-177) are runtime components outside the
repository; §5 of the spec fixes their semantics — a counting semaphore
admitting queued tasks in FIFO order, tasks submitted in index order,
completions in any order.  `T` is `total_requests`, `k` is
`concurrent_requests`. -/
inductive SemStep (T k : ℕ) : SchedState → SchedState → Prop
  | submit (s : SchedState) (h : s.nextTask < T) :
      SemStep T k s
        { s with nextTask := s.nextTask + 1, queue := s.queue ++ [s.nextTask] }
  | acquire (s : SchedState) (t : ℕ) (rest : List ℕ)
      (hq : s.queue = t :: rest) (hk : s.inFlight.length < k) :
      SemStep T k s
        { s with queue := rest, inFlight := s.inFlight ++ [t],
                 admitted := s.admitted ++ [t] }
  | finish (s : SchedState) (t : ℕ) (ht : t ∈ s.inFlight) :
      SemStep T k s
        { s with inFlight := s.inFlight.erase t,
                 finished := s.finished ++ [t] }

/-- The state before the measurement phase starts. -/
def initState : SchedState := ⟨0, [], [], [], []⟩

/-- States the measurement phase can reach. -/
inductive SemReachable (T k : ℕ) : SchedState → Prop
  | init : SemReachable T k initState
  | step {s s2 : SchedState} (h : SemReachable T k s)
      (hs : SemStep T k s s2) : SemReachable T k s2

/-- A block record with zero successful requests, as produced by the Load
Driver for a block where every request failed: every statistic is 0. -/
def zeroBlock : PerformanceMetrics :=
  { endpoint := "/block"
    total_requests := 10
    successful_requests := 0
    failed_requests := 10
    avg_response_time := 0
    min_response_time := 0
    max_response_time := 0
    p95_response_time := 0
    p99_response_time := 0
    throughput := 0
    success_rate := 0
    error_rate := 100
    errors := ["boom"]
    block_index := some 1
    individual_timings := none }

/-- Request outcomes for a run whose three requests all succeed with
response times 10, 20 and 30. -/
def exThree (i : ℕ) : TimingRecord :=
  { success := true
    response_time := [10, 20, 30].getD i 0
    status_code := some 200
    error := none
    timestamp := 0
    request_id := none }

/-- A block whose five successful requests all took (exactly) zero time:
`successful_requests = 5` but `avg_response_time = 0`. -/
def blockZeroAvg : PerformanceMetrics :=
  { endpoint := "/block"
    total_requests := 5
    successful_requests := 5
    failed_requests := 0
    avg_response_time := 0
    min_response_time := 0
    max_response_time := 0
    p95_response_time := 0
    p99_response_time := 0
    throughput := 1
    success_rate := 100
    error_rate := 0
    errors := []
    block_index := some 1
    individual_timings := none }

/-- A block with five successful requests averaging 2 seconds. -/
def blockTwoAvg : PerformanceMetrics :=
  { endpoint := "/block"
    total_requests := 5
    successful_requests := 5
    failed_requests := 0
    avg_response_time := 2
    min_response_time := 1
    max_response_time := 2
    p95_response_time := 2
    p99_response_time := 2
    throughput := 1
    success_rate := 100
    error_rate := 0
    errors := []
    block_index := some 2
    individual_timings := none }

/-- The `PerformanceMetrics` record of the three-sample run `exThree`
(times 10, 20, 30 over a 1-second window). -/
def runThree : PerformanceMetrics :=
  { endpoint := "/e"
    total_requests := 3
    successful_requests := 3
    failed_requests := 0
    avg_response_time := 20
    min_response_time := 10
    max_response_time := 30
    p95_response_time := 38
    p99_response_time := 198 / 5
    throughput := 3
    success_rate := 100
    error_rate := 0
    errors := []
    block_index := none
    individual_timings := none }

/-- A run whose single request fails with an empty error message
(`str(e) == ""`, as for exceptions constructed with no arguments). -/
def exEmptyFail (_ : ℕ) : TimingRecord :=
  { success := false
    response_time := 1
    status_code := none
    error := some ""
    timestamp := 0
    request_id := none }

/-- The record of the `exEmptyFail` run: one failed request yet an empty
`errors` list. -/
def runEmptyFail : PerformanceMetrics :=
  { endpoint := "/e"
    total_requests := 1
    successful_requests := 0
    failed_requests := 1
    avg_response_time := 0
    min_response_time := 0
    max_response_time := 0
    p95_response_time := 0
    p99_response_time := 0
    throughput := 0
    success_rate := 0
    error_rate := 100
    errors := []
    block_index := none
    individual_timings := none }

/-- The aggregate of the single block `blockTwoAvg`. -/
def aggTwo : AggregatedMetrics :=
  { endpoint := "/e"
    block_range := some (2, 2)
    total_blocks_tested := 1
    total_requests_all_blocks := 5
    successful_requests_all_blocks := 5
    failed_requests_all_blocks := 0
    avg_response_time_all_blocks := 2
    min_response_time_all_blocks := 1
    max_response_time_all_blocks := 2
    throughput_all_blocks := 1
    success_rate_all_blocks := 100
    error_rate_all_blocks := 0
    block_metrics := [blockTwoAvg] }

/-- A payload with a `block_identifier.index` occurrence at depth 2,
inside a list of mappings. -/
def samplePayload : List (String × JsonVal) :=
  [("a", JsonVal.arr [JsonVal.obj
    [("block_identifier", JsonVal.obj [("index", JsonVal.int 5)])]])]

/-- Claim C1: the claim (and the spec) say `aggregate_block_metrics` never
raises on a nonempty input, even when every block has `min_response_time = 0`;
the code instead raises `ValueError` there, because
`min(m.min_response_time for m in block_metrics if m.min_response_time > 0)`
runs on an empty generator — the `if block_metrics else 0` guard tests the
wrong condition.  Evaluating the embedding at the failing input (a single
all-failed block) yields `none`, i.e. an uncaught exception. -/
theorem claim_C1_crash :
    aggregate_block_metrics "/block" 1 1 [zeroBlock] = none := by
  norm_num [aggregate_block_metrics, allResponseTimes, zeroBlock, pyMinOpt,
    pyMaxOpt, pyMean]

/-- Claim C4: `main()` does return 1 on a missing configuration file, but
the script never passes that value to `sys.exit` — line 510 merely assigns
`exit_code = asyncio.run(main())` — so the process always terminates with
exit status 0, contradicting the claimed non-zero exit. -/
theorem claim_C4_exit_code :
    mainReturn RunOutcome.configNotFound = 1 ∧
    scriptExitCode RunOutcome.configNotFound = 0 ∧
    scriptExitCode RunOutcome.configNotFound ≠ 1 := by
  refine ⟨rfl, rfl, ?_⟩
  decide

/-- Claim C6: `make_request` never raises (it is a total function of the
request outcome); on an exception it returns `success = false`, the
human-readable message, and the time elapsed up to the failure point; on a
response it returns `success = true` with the response's status — for every
status value, non-2xx included. -/
theorem claim_C6 (start_time et : ℚ) (rid : Option ℕ) (msg : String)
    (status : ℕ) :
    (make_request start_time rid (.exn msg et)).success = false ∧
    (make_request start_time rid (.exn msg et)).error = some msg ∧
    (make_request start_time rid (.exn msg et)).response_time =
      et - start_time ∧
    (make_request start_time rid (.exn msg et)).status_code = none ∧
    (make_request start_time rid (.ok status et)).success = true ∧
    (make_request start_time rid (.ok status et)).status_code = some status ∧
    (make_request start_time rid (.ok status et)).response_time =
      et - start_time ∧
    (make_request start_time rid (.ok status et)).error = none :=
  ⟨rfl, rfl, rfl, rfl, rfl, rfl, rfl, rfl⟩

/-- Claim C2 counterexample: with n = 3 successful samples 10, 20, 30 the
code's p95 is `statistics.quantiles(times, n=20)[18] = 38` (the exclusive
method interpolates — here even extrapolates past the maximum), while the
claimed rank statistic `sorted[ceil(0.95*3) - 1] = sorted[2] = 30`.  The two
disagree, refuting the claim at this input. -/
theorem claim_C2_counterexample :
    (test_endpoint_concurrency 3 false "/e" none exThree 1).map
      (·.p95_response_time) = some 38 ∧
    rankPercentile [10, 20, 30] (95 / 100) = 30 ∧
    (38 : ℚ) ≠ 30 := by
  refine ⟨?_, ?_, by norm_num⟩
  · norm_num [test_endpoint_concurrency, successTimes, exThree, computeStats,
      List.range_succ, quantileExclusive, cutPoint, List.insertionSort,
      List.orderedInsert]
    rfl
  · have hc : (⌈(57 : ℚ) / 20⌉₊) = 3 := by
      rw [Nat.ceil_eq_iff (by norm_num)]
      norm_num
    norm_num [rankPercentile, List.insertionSort, List.orderedInsert, hc]

/-- Claim C3 counterexample: with `total_requests = 0` the claim says the
call still returns a record with both rates 0; the code instead raises
`ZeroDivisionError` computing `(0 / self.total_requests) * 100`, so no
record is returned. -/
theorem claim_C3_counterexample :
    test_endpoint_concurrency 0 false "/e" none exThree 1 = none := by
  norm_num [test_endpoint_concurrency]

/-- Claim C7 counterexample: the code weights only blocks with
`avg_response_time > 0`.  For the two blocks above (5 successes at average
0, 5 successes at average 2) the code returns 2, while the claimed
successful-request-weighted mean of the block averages is
`(5*0 + 5*2) / (5+5) = 1`.  The claim fails at this input. -/
theorem claim_C7_counterexample :
    (aggregate_block_metrics "/e" 1 2 [blockZeroAvg, blockTwoAvg]).map
      (·.avg_response_time_all_blocks) = some 2 ∧
    ([blockZeroAvg, blockTwoAvg].map
        (fun m => (m.successful_requests : ℚ) * m.avg_response_time)).sum /
      ([blockZeroAvg, blockTwoAvg].map
        (fun m => (m.successful_requests : ℚ))).sum = 1 ∧
    (2 : ℚ) ≠ 1 := by
  refine ⟨?_, by norm_num [blockZeroAvg, blockTwoAvg], by norm_num⟩
  norm_num [aggregate_block_metrics, allResponseTimes, blockZeroAvg,
    blockTwoAvg, pyMinOpt, pyMaxOpt, pyMean, List.replicate]
  exact ⟨_, rfl, rfl⟩

/-- Splitting a list by a Boolean predicate preserves its length. -/
theorem filter_length_split {α : Type} (l : List α) (p : α → Bool) :
    (l.filter p).length + (l.filter (fun x => !p x)).length = l.length := by
  induction l with
  | nil => rfl
  | cons a l ih =>
    by_cases h : p a <;> simp [List.filter, h, ← ih] <;> omega

/-- Claim C3, amended: the code raises `ZeroDivisionError` when
`total_requests = 0` instead of returning a record with both rates 0;
whenever a record is returned, `total_requests` is positive and equals
`successful_requests + failed_requests`, and the two rates sum to exactly
100. -/
theorem claim_C3_amended (T : ℕ) (vb : Bool) (path : String) (bi : Option ℤ)
    (ex : ℕ → TimingRecord) (tt : ℚ) (M : PerformanceMetrics)
    (h : test_endpoint_concurrency T vb path bi ex tt = some M) :
    M.total_requests = M.successful_requests + M.failed_requests ∧
    M.success_rate + M.error_rate = 100 ∧
    0 < M.total_requests := by
  simp only [test_endpoint_concurrency] at h
  split at h
  · exact absurd h (by simp)
  · rename_i hc
    have hT : T ≠ 0 := fun h0 => hc (Or.inr h0)
    simp only [Option.some.injEq] at h
    subst h
    have hsplit := filter_length_split ((List.range T).map ex) (·.success)
    have hlen : ((List.range T).map ex).length = T := by simp
    refine ⟨?_, ?_, Nat.pos_of_ne_zero hT⟩
    · simp only
      omega
    · simp only
      have hTQ : (T : ℚ) ≠ 0 := Nat.cast_ne_zero.mpr hT
      have hxy : (((List.range T).map ex).filter (·.success)).length +
          (((List.range T).map ex).filter (fun r => !r.success)).length
          = T := hsplit.trans hlen
      have hq : ((((List.range T).map ex).filter (·.success)).length : ℚ) +
          ((((List.range T).map ex).filter (fun r => !r.success)).length : ℚ)
          = (T : ℚ) := by exact_mod_cast hxy
      field_simp
      linarith [hq]

/-- Lemma: `errString` produces exactly the non-empty error strings. -/
theorem errString_eq_some (r : TimingRecord) (s : String) :
    errString r = some s ↔ r.error = some s ∧ s ≠ "" := by
  cases he : r.error with
  | none => simp [errString, he]
  | some s0 =>
    simp only [errString, he, Option.some.injEq]
    by_cases h0 : s0 = ""
    · subst h0
      simp only [if_pos rfl]
      constructor
      · intro h
        exact absurd h (by simp)
      · rintro ⟨h1, h2⟩
        exact absurd h1.symm h2
    · simp only [if_neg h0]
      constructor
      · intro h
        cases h
        exact ⟨rfl, h0⟩
      · rintro ⟨h1, h2⟩
        subst h1
        rfl

/-- Claim C10: the `errors` field of a returned record is duplicate-free
and contains a string exactly when it is the (non-empty) error message of
some failed request of the run; a failed request with an empty message
contributes nothing, so `errors` can be empty while `failed_requests > 0`
(see the witness). -/
theorem claim_C10 (T : ℕ) (vb : Bool) (path : String) (bi : Option ℤ)
    (ex : ℕ → TimingRecord) (tt : ℚ) (M : PerformanceMetrics)
    (h : test_endpoint_concurrency T vb path bi ex tt = some M) :
    M.errors.Nodup ∧
    ∀ s : String, s ∈ M.errors ↔
      s ≠ "" ∧ ∃ r ∈ (List.range T).map ex,
        r.success = false ∧ r.error = some s := by
  simp only [test_endpoint_concurrency] at h
  split at h
  · exact absurd h (by simp)
  · simp only [Option.some.injEq] at h
    subst h
    refine ⟨List.nodup_dedup _, fun s => ?_⟩
    simp only [List.mem_dedup, List.mem_filterMap, List.mem_filter,
      errString_eq_some, Bool.not_eq_true']
    constructor
    · rintro ⟨r, ⟨hr, hrs⟩, he, hs⟩
      exact ⟨hs, r, hr, hrs, he⟩
    · rintro ⟨hs, r, hr, hrs, he⟩
      exact ⟨r, ⟨hr, hrs⟩, he, hs⟩

/-- Lemma: `computeStats` on a nonempty list takes the statistics branch. -/
theorem computeStats_cons (x : ℚ) (l : List ℚ) :
    computeStats (x :: l) =
      (pyMean (x :: l), pyMin (x :: l), pyMax (x :: l),
       if 1 < (x :: l).length then quantileExclusive (x :: l) 20 19
       else (x :: l).headD 0,
       if 1 < (x :: l).length then quantileExclusive (x :: l) 100 99
       else (x :: l).headD 0) := by
  rw [computeStats, if_neg (List.cons_ne_nil x l)]

/-- Claim C2, amended: the source computes p95 and p99 with
`statistics.quantiles` (exclusive method, cut points 19/20 and 99/100,
linear interpolation/extrapolation on the sorted samples), not with the
rank statistic `sorted[ceil(p*n)-1]`; the degenerate cases are as claimed —
with one successful sample every statistic is that sample, with none every
statistic is 0. -/
theorem claim_C2_amended (T : ℕ) (vb : Bool) (path : String) (bi : Option ℤ)
    (ex : ℕ → TimingRecord) (tt : ℚ) (M : PerformanceMetrics)
    (h : test_endpoint_concurrency T vb path bi ex tt = some M) :
    (2 ≤ (successTimes T ex).length →
      M.p95_response_time = quantileExclusive (successTimes T ex) 20 19 ∧
      M.p99_response_time = quantileExclusive (successTimes T ex) 100 99) ∧
    (∀ x : ℚ, successTimes T ex = [x] →
      M.avg_response_time = x ∧ M.min_response_time = x ∧
      M.max_response_time = x ∧ M.p95_response_time = x ∧
      M.p99_response_time = x) ∧
    (successTimes T ex = [] →
      M.avg_response_time = 0 ∧ M.min_response_time = 0 ∧
      M.max_response_time = 0 ∧ M.p95_response_time = 0 ∧
      M.p99_response_time = 0) := by
  simp only [test_endpoint_concurrency] at h
  split at h
  · exact absurd h (by simp)
  · simp only [Option.some.injEq] at h
    subst h
    refine ⟨fun h2 => ?_, fun x hx => ?_, fun h0 => ?_⟩
    · have hne : successTimes T ex ≠ [] :=
        List.ne_nil_of_length_pos (by omega)
      have h1 : 1 < (successTimes T ex).length := by omega
      constructor
      · show (computeStats (successTimes T ex)).2.2.2.1 = _
        rw [computeStats, if_neg hne]
        simp only [if_pos h1]
      · show (computeStats (successTimes T ex)).2.2.2.2 = _
        rw [computeStats, if_neg hne]
        simp only [if_pos h1]
    · refine ⟨?_, ?_, ?_, ?_, ?_⟩ <;>
        simp only [hx, computeStats_cons, List.length_cons, List.length_nil,
          List.headD_cons, pyMean, pyMin, pyMax, List.sum_cons, List.sum_nil,
          List.foldl_nil] <;> norm_num
    · refine ⟨?_, ?_, ?_, ?_, ?_⟩ <;> simp [h0, computeStats]

/-- Evaluating the embedded Load Driver on the `exThree` run. -/
theorem runThree_eq :
    test_endpoint_concurrency 3 false "/e" none exThree 1 = some runThree := by
  norm_num [test_endpoint_concurrency, successTimes, exThree,
    computeStats_cons, List.range_succ, quantileExclusive, cutPoint,
    List.insertionSort, List.orderedInsert, runThree, pyMean, pyMin, pyMax]

/-- Witness for the amended claim C2 at the concrete run `exThree`. -/
theorem claim_C2_witness :
    test_endpoint_concurrency 3 false "/e" none exThree 1 = some runThree ∧
    2 ≤ (successTimes 3 exThree).length ∧
    runThree.p95_response_time = quantileExclusive (successTimes 3 exThree) 20 19 := by
  have hlen : 2 ≤ (successTimes 3 exThree).length := by
    norm_num [successTimes, exThree, List.range_succ]
  exact ⟨runThree_eq, hlen,
    ((claim_C2_amended 3 false "/e" none exThree 1 runThree runThree_eq).1
      hlen).1⟩

/-- Witness for the amended claim C3 at the concrete run `exThree`. -/
theorem claim_C3_witness :
    test_endpoint_concurrency 3 false "/e" none exThree 1 = some runThree ∧
    runThree.success_rate + runThree.error_rate = 100 := by
  exact ⟨runThree_eq,
    (claim_C3_amended 3 false "/e" none exThree 1 runThree runThree_eq).2.1⟩

/-- Witness for claim C10: a run with `failed_requests = 1` whose `errors`
list is empty (the failure's message is the empty string), and duplicate-free
as the claim requires. -/
theorem claim_C10_witness :
    test_endpoint_concurrency 1 false "/e" none exEmptyFail 1 =
      some runEmptyFail ∧
    runEmptyFail.failed_requests = 1 ∧
    runEmptyFail.errors = [] ∧
    runEmptyFail.errors.Nodup := by
  have h : test_endpoint_concurrency 1 false "/e" none exEmptyFail 1 =
      some runEmptyFail := by
    norm_num [test_endpoint_concurrency, successTimes, exEmptyFail,
      computeStats, List.range_succ, runEmptyFail, errString]
  exact ⟨h, rfl, rfl,
    (claim_C10 1 false "/e" none exEmptyFail 1 runEmptyFail h).1⟩

/-- When every block with a non-positive average has no successful request,
the replicated list sums to the successful-request-weighted sum of the
block averages. -/
theorem allResponseTimes_sum (bm : List PerformanceMetrics)
    (h1 : ∀ m ∈ bm, 0 < m.avg_response_time ∨ m.successful_requests = 0) :
    (allResponseTimes bm).sum =
      (bm.map (fun m =>
        (m.successful_requests : ℚ) * m.avg_response_time)).sum := by
  induction bm with
  | nil => simp [allResponseTimes]
  | cons m bm ih =>
    have hm := h1 m (List.mem_cons_self m bm)
    have ih2 := ih (fun x hx => h1 x (List.mem_cons_of_mem m hx))
    simp only [allResponseTimes, List.foldr_cons, List.sum_append,
      List.map_cons, List.sum_cons] at ih2 ⊢
    by_cases ha : 0 < m.avg_response_time
    · rw [if_pos ha, ih2]
      simp [List.sum_replicate, nsmul_eq_mul]
    · rcases hm with hp | hz
      · exact absurd hp ha
      · rw [if_neg ha, hz, ih2]
        simp

/-- Under the same proviso the replicated list's length is the total
successful-request count. -/
theorem allResponseTimes_length (bm : List PerformanceMetrics)
    (h1 : ∀ m ∈ bm, 0 < m.avg_response_time ∨ m.successful_requests = 0) :
    (allResponseTimes bm).length = (bm.map (·.successful_requests)).sum := by
  induction bm with
  | nil => simp [allResponseTimes]
  | cons m bm ih =>
    have hm := h1 m (List.mem_cons_self m bm)
    have ih2 := ih (fun x hx => h1 x (List.mem_cons_of_mem m hx))
    simp only [allResponseTimes, List.foldr_cons, List.length_append,
      List.map_cons, List.sum_cons] at ih2 ⊢
    by_cases ha : 0 < m.avg_response_time
    · rw [if_pos ha, ih2]
      simp
    · rcases hm with hp | hz
      · exact absurd hp ha
      · rw [if_neg ha, hz, ih2]
        simp

/-- Claim C7, amended: the code weights only the blocks with a strictly
positive `avg_response_time`.  Whenever every block with a non-positive
average also has zero successful requests (true of all Load Driver output
except the corner case of successful requests measured at exactly 0.0
seconds), and some block has a successful request, any returned aggregate
has `avg_response_time_all_blocks` equal to the claimed
successful-request-weighted mean of the block averages. -/
theorem claim_C7_amended (path : String) (bs be : ℤ)
    (bm : List PerformanceMetrics)
    (h1 : ∀ m ∈ bm, 0 < m.avg_response_time ∨ m.successful_requests = 0)
    (h2 : 0 < (bm.map (·.successful_requests)).sum)
    (agg : AggregatedMetrics)
    (h3 : aggregate_block_metrics path bs be bm = some agg) :
    agg.avg_response_time_all_blocks =
      (bm.map (fun m =>
        (m.successful_requests : ℚ) * m.avg_response_time)).sum /
      ((bm.map (·.successful_requests)).sum : ℚ) := by
  have hlen := allResponseTimes_length bm h1
  have hsum := allResponseTimes_sum bm h1
  have hne : allResponseTimes bm ≠ [] := by
    apply List.ne_nil_of_length_pos
    omega
  simp only [aggregate_block_metrics] at h3
  split at h3
  · rename_i mn mx th hmn hmx hth
    simp only [Option.some.injEq] at h3
    subst h3
    simp only
    rw [if_neg hne, pyMean, hsum, hlen, Nat.cast_list_sum, List.map_map]
    rfl
  · exact absurd h3 (by simp)

/-- Witness for the amended claim C7 at the single-block input
`[blockTwoAvg]`. -/
theorem claim_C7_witness :
    aggregate_block_metrics "/e" 2 2 [blockTwoAvg] = some aggTwo ∧
    (∀ m ∈ [blockTwoAvg],
      0 < m.avg_response_time ∨ m.successful_requests = 0) ∧
    aggTwo.avg_response_time_all_blocks =
      ([blockTwoAvg].map (fun m =>
        (m.successful_requests : ℚ) * m.avg_response_time)).sum /
      (([blockTwoAvg].map (·.successful_requests)).sum : ℚ) := by
  have hagg : aggregate_block_metrics "/e" 2 2 [blockTwoAvg] = some aggTwo := by
    norm_num [aggregate_block_metrics, allResponseTimes, blockTwoAvg, aggTwo,
      pyMinOpt, pyMaxOpt, pyMean, List.replicate]
    exact List.cons_ne_nil _ _
  have h1 : ∀ m ∈ [blockTwoAvg],
      0 < m.avg_response_time ∨ m.successful_requests = 0 := by
    intro m hm
    simp only [List.mem_singleton] at hm
    subst hm
    left
    norm_num [blockTwoAvg]
  exact ⟨hagg, h1,
    claim_C7_amended "/e" 2 2 [blockTwoAvg] h1
      (by norm_num [blockTwoAvg]) aggTwo hagg⟩

/-- Safety invariant of the measurement phase: the semaphore bound holds,
the admission log followed by the wait queue is exactly the submission
prefix `range nextTask` (so admissions happen in FIFO submission order),
and no more than `T` tasks are ever created. -/
theorem semInvariant (T k : ℕ) (s : SchedState) (h : SemReachable T k s) :
    s.inFlight.length ≤ k ∧
    s.admitted ++ s.queue = List.range s.nextTask ∧
    s.nextTask ≤ T := by
  induction h with
  | init => simp [initState]
  | step h hs ih =>
    obtain ⟨ih1, ih2, ih3⟩ := ih
    cases hs with
    | submit hlt =>
      refine ⟨ih1, ?_, hlt⟩
      simp only [List.range_succ, ← List.append_assoc, ih2]
    | acquire t rest hq hk =>
      refine ⟨?_, ?_, ih3⟩
      · simp only [List.length_append, List.length_singleton]
        omega
      · rw [List.append_assoc, List.singleton_append, ← hq]
        exact ih2
    | finish t ht =>
      exact ⟨le_trans (List.erase_sublist t _).length_le ih1, ih2, ih3⟩

/-- Claim C9: in the transition system of the measurement phase
(tasks `0..T-1` submitted in index order, a counting semaphore of size `k`
admitting the queue head when a slot is free, completions unordered),
every reachable state has at most `k` tasks in flight and an admission log
that is a prefix of the submission order; when `k ≥ 1` and no further step
is possible, all `T` dispatched tasks have been admitted, in FIFO
submission order `0, 1, ..., T-1`. -/
theorem claim_C9 (T k : ℕ) (s : SchedState) (h : SemReachable T k s) :
    s.inFlight.length ≤ k ∧
    s.admitted ++ s.queue = List.range s.nextTask ∧
    s.nextTask ≤ T ∧
    (1 ≤ k → (∀ s2, ¬ SemStep T k s s2) → s.admitted = List.range T) := by
  obtain ⟨inv1, inv2, inv3⟩ := semInvariant T k s h
  refine ⟨inv1, inv2, inv3, fun hk hterm => ?_⟩
  have hT : s.nextTask = T := by
    by_contra hne
    exact hterm _ (SemStep.submit s (lt_of_le_of_ne inv3 hne))
  have hIF : s.inFlight = [] := by
    cases hif : s.inFlight with
    | nil => rfl
    | cons a l =>
      exact absurd (SemStep.finish s a (by rw [hif]; exact List.mem_cons_self a l))
        (hterm _)
  have hQ : s.queue = [] := by
    cases hq : s.queue with
    | nil => rfl
    | cons t rest =>
      refine absurd (SemStep.acquire s t rest hq ?_) (hterm _)
      rw [hIF]
      simpa using hk
  rw [hQ, List.append_nil, hT] at inv2
  exact inv2

/-- Witness for claim C9: with `T = 2`, `k = 1`, after submitting both
tasks and admitting one, the reached state respects the bound and its
admission log plus queue is the submission prefix. -/
theorem claim_C9_witness :
    SemReachable 2 1 ⟨2, [1], [0], [0], []⟩ ∧
    (⟨2, [1], [0], [0], []⟩ : SchedState).inFlight.length ≤ 1 ∧
    (⟨2, [1], [0], [0], []⟩ : SchedState).admitted ++
      (⟨2, [1], [0], [0], []⟩ : SchedState).queue = List.range 2 := by
  have h0 : SemReachable 2 1 initState := SemReachable.init
  have h1 : SemReachable 2 1 ⟨1, [0], [], [], []⟩ :=
    SemReachable.step h0 (SemStep.submit initState (by decide))
  have h2 : SemReachable 2 1 ⟨2, [0, 1], [], [], []⟩ :=
    SemReachable.step h1 (SemStep.submit ⟨1, [0], [], [], []⟩ (by decide))
  have h3 : SemReachable 2 1 ⟨2, [1], [0], [0], []⟩ :=
    SemReachable.step h2
      (SemStep.acquire ⟨2, [0, 1], [], [], []⟩ 0 [1] rfl (by decide))
  exact ⟨h3, (claim_C9 2 1 _ h3).1, (claim_C9 2 1 _ h3).2.1⟩

/-- Lemma: `updEntry` never changes the key of an entry. -/
theorem updEntry_fst (i : ℤ) (ow : Bool) (k : String) (v : JsonVal) :
    (updEntry i ow k v).1 = k := by
  rw [updEntry.eq_def]
  split
  · rfl
  · cases v with
    | obj inner =>
      simp only
      split
      · rfl
      · rfl
    | arr items => rfl
    | int n => rfl
    | str s => rfl
    | bool b => rfl
    | null => rfl

/-- Keys of the rewritten dict all come from the original dict. -/
theorem updObj_keys (i : ℤ) (ow : Bool) (es : List (String × JsonVal))
    (k : String) (v : JsonVal) (h : (k, v) ∈ updObj i ow es) :
    ∃ v0, (k, v0) ∈ es := by
  induction es with
  | nil => simp [updObj] at h
  | cons kv rest ih =>
    obtain ⟨k0, v0⟩ := kv
    simp only [updObj] at h
    rcases List.mem_cons.mp h with h1 | h2
    · have hk : k = k0 := by
        have hf := updEntry_fst i ow k0 v0
        rw [← h1] at hf
        exact hf.symm ▸ rfl
      subst hk
      exact ⟨v0, List.mem_cons_self _ _⟩
    · obtain ⟨w, hw⟩ := ih h2
      exact ⟨w, List.mem_cons_of_mem _ hw⟩

/-- In a dict processed with the overwrite flag set, every `"index"` entry
carries the new block index. -/
theorem updObj_true_index (i : ℤ) (es : List (String × JsonVal)) (v : JsonVal)
    (h : ("index", v) ∈ updObj i true es) : v = JsonVal.int i := by
  induction es with
  | nil => simp [updObj] at h
  | cons kv rest ih =>
    obtain ⟨k0, v0⟩ := kv
    simp only [updObj] at h
    rcases List.mem_cons.mp h with h1 | h2
    · have hk : k0 = "index" := by
        have hf := updEntry_fst i true k0 v0
        rw [← h1] at hf
        simpa using hf.symm
      subst hk
      rw [updEntry.eq_def, if_pos ⟨rfl, rfl⟩] at h1
      have := congrArg Prod.snd h1
      simpa using this
    · exact ih h2

/-- A dict with no `"index"` key yields no `"index"` entry after rewriting. -/
theorem updObj_no_index (i : ℤ) (ow : Bool) (es : List (String × JsonVal))
    (hno : hasIndexKey es = false) (v : JsonVal)
    (h : ("index", v) ∈ updObj i ow es) : False := by
  obtain ⟨v0, hv0⟩ := updObj_keys i ow es "index" v h
  have : hasIndexKey es = true := by
    rw [hasIndexKey, List.any_eq_true]
    exact ⟨("index", v0), hv0, by simp⟩
  rw [hno] at this
  cases this

/-- Local goodness of a rewritten dict: any `block_identifier` entry of it
that is a dict maps `"index"` (if present) to the new block index. -/
theorem updObj_local (i : ℤ) (ow : Bool) (es : List (String × JsonVal)) :
    ∀ inner v, ("block_identifier", JsonVal.obj inner) ∈ updObj i ow es →
      ("index", v) ∈ inner → v = JsonVal.int i := by
  induction es with
  | nil => intro inner v h _; simp [updObj] at h
  | cons kv rest ih =>
    obtain ⟨k0, v0⟩ := kv
    intro inner v h hidx
    simp only [updObj] at h
    rcases List.mem_cons.mp h with h1 | h2
    · have hk : k0 = "block_identifier" := by
        have hf := updEntry_fst i ow k0 v0
        rw [← h1] at hf
        simpa using hf.symm
      subst hk
      rw [updEntry.eq_def, if_neg (by simp)] at h1
      cases v0 with
      | obj inner0 =>
        dsimp only at h1
        by_cases hidx0 : hasIndexKey inner0 = true
        · rw [if_pos ⟨rfl, hidx0⟩] at h1
          have hsnd := congrArg Prod.snd h1
          have hinner : inner = updObj i true inner0 :=
            JsonVal.obj.inj (by simpa using hsnd)
          exact updObj_true_index i inner0 v (hinner ▸ hidx)
        · rw [if_neg (fun hc => hidx0 hc.2)] at h1
          have hsnd := congrArg Prod.snd h1
          have hinner : inner = updObj i false inner0 :=
            JsonVal.obj.inj (by simpa using hsnd)
          exact absurd (hinner ▸ hidx)
            (fun hm => updObj_no_index i false inner0
              (Bool.eq_false_iff.mpr hidx0) v hm)
      | arr items =>
        dsimp only at h1
        exact JsonVal.noConfusion (congrArg Prod.snd h1)
      | int n =>
        dsimp only at h1
        exact JsonVal.noConfusion (congrArg Prod.snd h1)
      | str s =>
        dsimp only at h1
        exact JsonVal.noConfusion (congrArg Prod.snd h1)
      | bool b =>
        dsimp only at h1
        exact JsonVal.noConfusion (congrArg Prod.snd h1)
      | null =>
        dsimp only at h1
        exact JsonVal.noConfusion (congrArg Prod.snd h1)
    · exact ih inner v h2 hidx

/-- Every dict item of a rewritten list is itself a rewritten dict. -/
theorem updItems_shape (i : ℤ) (items : List JsonVal)
    (inner : List (String × JsonVal))
    (h : JsonVal.obj inner ∈ updItems i items) :
    ∃ es0, inner = updObj i false es0 := by
  induction items with
  | nil => simp [updItems] at h
  | cons x rest ih =>
    cases x with
    | obj es =>
      simp only [updItems] at h
      rcases List.mem_cons.mp h with h1 | h2
      · exact ⟨es, JsonVal.obj.inj h1⟩
      · exact ih h2
    | arr ys =>
      simp only [updItems] at h
      rcases List.mem_cons.mp h with h1 | h2
      · exact JsonVal.noConfusion h1
      · exact ih h2
    | int n =>
      simp only [updItems] at h
      rcases List.mem_cons.mp h with h1 | h2
      · exact JsonVal.noConfusion h1
      · exact ih h2
    | str s =>
      simp only [updItems] at h
      rcases List.mem_cons.mp h with h1 | h2
      · exact JsonVal.noConfusion h1
      · exact ih h2
    | bool b =>
      simp only [updItems] at h
      rcases List.mem_cons.mp h with h1 | h2
      · exact JsonVal.noConfusion h1
      · exact ih h2
    | null =>
      simp only [updItems] at h
      rcases List.mem_cons.mp h with h1 | h2
      · exact JsonVal.noConfusion h1
      · exact ih h2

/-- Values of a rewritten dict: a dict value is a rewritten dict, and the
dict items of a list value are rewritten dicts. -/
theorem updObj_value_shape (i : ℤ) (ow : Bool)
    (es : List (String × JsonVal)) (k : String) (v : JsonVal)
    (h : (k, v) ∈ updObj i ow es) :
    (∀ inner, v = JsonVal.obj inner →
      ∃ ow2 es0, inner = updObj i ow2 es0) ∧
    (∀ items, v = JsonVal.arr items →
      ∀ inner, JsonVal.obj inner ∈ items →
        ∃ es0, inner = updObj i false es0) := by
  induction es with
  | nil => simp [updObj] at h
  | cons kv rest ih =>
    obtain ⟨k0, v0⟩ := kv
    simp only [updObj] at h
    rcases List.mem_cons.mp h with h1 | h2
    · rw [updEntry.eq_def] at h1
      by_cases hcond : ow = true ∧ k0 = "index"
      · rw [if_pos hcond] at h1
        have hv : v = JsonVal.int i := by simpa using congrArg Prod.snd h1
        subst hv
        exact ⟨fun inner hinner => JsonVal.noConfusion hinner,
          fun items hitems => JsonVal.noConfusion hitems⟩
      · rw [if_neg hcond] at h1
        cases v0 with
        | obj inner0 =>
          dsimp only at h1
          by_cases hbi : k0 = "block_identifier" ∧ hasIndexKey inner0 = true
          · rw [if_pos hbi] at h1
            have hv : v = JsonVal.obj (updObj i true inner0) := by
              simpa using congrArg Prod.snd h1
            subst hv
            refine ⟨fun inner hinner => ⟨true, inner0, ?_⟩,
              fun items hitems => JsonVal.noConfusion hitems⟩
            exact (JsonVal.obj.inj hinner).symm
          · rw [if_neg hbi] at h1
            have hv : v = JsonVal.obj (updObj i false inner0) := by
              simpa using congrArg Prod.snd h1
            subst hv
            refine ⟨fun inner hinner => ⟨false, inner0, ?_⟩,
              fun items hitems => JsonVal.noConfusion hitems⟩
            exact (JsonVal.obj.inj hinner).symm
        | arr items0 =>
          dsimp only at h1
          have hv : v = JsonVal.arr (updItems i items0) := by
            simpa using congrArg Prod.snd h1
          subst hv
          refine ⟨fun inner hinner => JsonVal.noConfusion hinner,
            fun items hitems inner hmem => ?_⟩
          have hit : items = updItems i items0 := (JsonVal.arr.inj hitems).symm
          exact updItems_shape i items0 inner (hit ▸ hmem)
        | int n =>
          dsimp only at h1
          have hv : v = JsonVal.int n := by
            simpa using congrArg Prod.snd h1
          subst hv
          exact ⟨fun inner hinner => JsonVal.noConfusion hinner,
            fun items hitems => JsonVal.noConfusion hitems⟩
        | str s =>
          dsimp only at h1
          have hv : v = JsonVal.str s := by
            simpa using congrArg Prod.snd h1
          subst hv
          exact ⟨fun inner hinner => JsonVal.noConfusion hinner,
            fun items hitems => JsonVal.noConfusion hitems⟩
        | bool b =>
          dsimp only at h1
          have hv : v = JsonVal.bool b := by
            simpa using congrArg Prod.snd h1
          subst hv
          exact ⟨fun inner hinner => JsonVal.noConfusion hinner,
            fun items hitems => JsonVal.noConfusion hitems⟩
        | null =>
          dsimp only at h1
          have hv : v = JsonVal.null := by
            simpa using congrArg Prod.snd h1
          subst hv
          exact ⟨fun inner hinner => JsonVal.noConfusion hinner,
            fun items hitems => JsonVal.noConfusion hitems⟩
    · exact ih h2

/-- Any dict visited by the traversal inside a rewritten payload is itself
a rewritten dict. -/
theorem reach_shape (i : ℤ) {a tgt : List (String × JsonVal)}
    (h : ReachesObj a tgt) :
    ∀ ow es, a = updObj i ow es → ∃ ow2 es2, tgt = updObj i ow2 es2 := by
  induction h with
  | refl es0 => exact fun ow es ha => ⟨ow, es, ha⟩
  | viaObj hmem hr ih =>
    intro ow es ha
    subst ha
    obtain ⟨ow2, es2, hinner⟩ := (updObj_value_shape i ow es _ _ hmem).1 _ rfl
    exact ih ow2 es2 hinner
  | viaArr hmem hitem hr ih =>
    intro ow es ha
    subst ha
    obtain ⟨es0, hinner⟩ :=
      (updObj_value_shape i ow es _ _ hmem).2 _ rfl _ hitem
    exact ih false es0 hinner

/-- Claim C5: after `update_block_index payload i`, every `"index"` entry
of a `block_identifier` dict, in any dict of the result reachable through
nested mappings or through sequences of mappings, holds the value `i`.
Purity holds by construction of the embedding: the function's argument is
untouched and the result is a fresh tree (the source achieves this with
`copy.deepcopy` before its in-place traversal). -/
theorem claim_C5 (payload : List (String × JsonVal)) (i : ℤ)
    (tgt inner : List (String × JsonVal)) (v : JsonVal)
    (h1 : ReachesObj (update_block_index payload i) tgt)
    (h2 : ("block_identifier", JsonVal.obj inner) ∈ tgt)
    (h3 : ("index", v) ∈ inner) : v = JsonVal.int i := by
  obtain ⟨ow2, es2, htgt⟩ := reach_shape i h1 false payload rfl
  subst htgt
  exact updObj_local i ow2 es2 inner v h2 h3

/-- Witness for claim C5: rewriting `samplePayload` to block index 7 and
descending through the list of mappings reaches a dict whose
`block_identifier.index` is 7. -/
theorem claim_C5_witness :
    ReachesObj (update_block_index samplePayload 7)
      [("block_identifier", JsonVal.obj [("index", JsonVal.int 7)])] ∧
    ("index", JsonVal.int 7) ∈
      [("index", JsonVal.int 7)] ∧
    JsonVal.int 7 = JsonVal.int 7 := by
  have hre : update_block_index samplePayload 7 =
      [("a", JsonVal.arr [JsonVal.obj
        [("block_identifier", JsonVal.obj [("index", JsonVal.int 7)])]])] := by
    simp [update_block_index, samplePayload, updObj, updEntry, updItems,
      hasIndexKey]
  have hreach : ReachesObj (update_block_index samplePayload 7)
      [("block_identifier", JsonVal.obj [("index", JsonVal.int 7)])] := by
    rw [hre]
    exact ReachesObj.viaArr (List.mem_cons_self _ _) (List.mem_cons_self _ _)
      (ReachesObj.refl _)
  exact ⟨hreach, List.mem_cons_self _ _,
    claim_C5 samplePayload 7 _ [("index", JsonVal.int 7)] (JsonVal.int 7)
      hreach (List.mem_cons_self _ _) (List.mem_cons_self _ _)⟩

/-- A left min-fold is bounded by its initial value. -/
theorem foldl_min_le_start (l : List ℚ) (x : ℚ) : l.foldl min x ≤ x := by
  induction l generalizing x with
  | nil => simp
  | cons a l ih =>
    simp only [List.foldl_cons]
    exact le_trans (ih (min x a)) (min_le_left x a)

/-- A left min-fold is bounded by every list element. -/
theorem foldl_min_le_mem (l : List ℚ) (x y : ℚ) (hy : y ∈ l) :
    l.foldl min x ≤ y := by
  induction l generalizing x with
  | nil => cases hy
  | cons a l ih =>
    simp only [List.foldl_cons]
    rcases List.mem_cons.mp hy with rfl | hy2
    · exact le_trans (foldl_min_le_start l (min x y)) (min_le_right x y)
    · exact ih (min x a) hy2

/-- Python's `min` is a lower bound of the list. -/
theorem pyMin_le_mem (l : List ℚ) (y : ℚ) (hy : y ∈ l) : pyMin l ≤ y := by
  cases l with
  | nil => cases hy
  | cons a rest =>
    simp only [pyMin]
    rcases List.mem_cons.mp hy with rfl | hy2
    · exact foldl_min_le_start rest y
    · exact foldl_min_le_mem rest a y hy2

/-- A left max-fold dominates its initial value. -/
theorem start_le_foldl_max (l : List ℚ) (x : ℚ) : x ≤ l.foldl max x := by
  induction l generalizing x with
  | nil => simp
  | cons a l ih =>
    simp only [List.foldl_cons]
    exact le_trans (le_max_left x a) (ih (max x a))

/-- A left max-fold dominates every list element. -/
theorem mem_le_foldl_max (l : List ℚ) (x y : ℚ) (hy : y ∈ l) :
    y ≤ l.foldl max x := by
  induction l generalizing x with
  | nil => cases hy
  | cons a l ih =>
    simp only [List.foldl_cons]
    rcases List.mem_cons.mp hy with rfl | hy2
    · exact le_trans (le_max_right x y) (start_le_foldl_max l (max x y))
    · exact ih (max x a) hy2

/-- Python's `max` is an upper bound of the list. -/
theorem mem_le_pyMax (l : List ℚ) (y : ℚ) (hy : y ∈ l) : y ≤ pyMax l := by
  cases l with
  | nil => cases hy
  | cons a rest =>
    simp only [pyMax]
    rcases List.mem_cons.mp hy with rfl | hy2
    · exact start_le_foldl_max rest y
    · exact mem_le_foldl_max rest a y hy2

/-- A uniform lower bound of the elements bounds the sum from below. -/
theorem mul_length_le_sum (l : List ℚ) (c : ℚ) (h : ∀ x ∈ l, c ≤ x) :
    c * l.length ≤ l.sum := by
  induction l with
  | nil => simp
  | cons a l ih =>
    simp only [List.length_cons, List.sum_cons]
    push_cast
    have hrest := ih (fun x hx => h x (List.mem_cons_of_mem _ hx))
    have ha := h a (List.mem_cons_self _ _)
    nlinarith

/-- A uniform upper bound of the elements bounds the sum from above. -/
theorem sum_le_mul_length (l : List ℚ) (c : ℚ) (h : ∀ x ∈ l, x ≤ c) :
    l.sum ≤ c * l.length := by
  induction l with
  | nil => simp
  | cons a l ih =>
    simp only [List.length_cons, List.sum_cons]
    push_cast
    have hrest := ih (fun x hx => h x (List.mem_cons_of_mem _ hx))
    have ha := h a (List.mem_cons_self _ _)
    nlinarith

/-- Python `min` is below the mean on a nonempty list. -/
theorem pyMin_le_pyMean (l : List ℚ) (h : l ≠ []) : pyMin l ≤ pyMean l := by
  have hpos : (0 : ℚ) < l.length := by
    have := List.length_pos.mpr h
    exact_mod_cast this
  rw [pyMean, le_div_iff₀ hpos]
  exact mul_length_le_sum l (pyMin l) (fun x hx => pyMin_le_mem l x hx)

/-- The mean is below Python `max` on a nonempty list. -/
theorem pyMean_le_pyMax (l : List ℚ) (h : l ≠ []) : pyMean l ≤ pyMax l := by
  have hpos : (0 : ℚ) < l.length := by
    have := List.length_pos.mpr h
    exact_mod_cast this
  rw [pyMean, div_le_iff₀ hpos]
  exact sum_le_mul_length l (pyMax l) (fun x hx => mem_le_pyMax l x hx)

/-- Reading with `getD` at an in-bounds index is `get`. -/
theorem getD_eq_get (l : List ℚ) (n : ℕ) (h : n < l.length) :
    l.getD n 0 = l.get ⟨n, h⟩ := by
  simp [List.getD_eq_getElem?_getD, List.getElem?_eq_getElem h,
    List.get_eq_getElem]

/-- Entries of a sorted list are monotone in the index. -/
theorem sorted_getD_mono (s : List ℚ) (hs : s.Sorted (· ≤ ·)) (a b : ℕ)
    (hab : a ≤ b) (hb : b < s.length) : s.getD a 0 ≤ s.getD b 0 := by
  have ha : a < s.length := lt_of_le_of_lt hab hb
  rcases eq_or_lt_of_le hab with h | h
  · subst h
    exact le_of_eq rfl
  · rw [getD_eq_get s a ha, getD_eq_get s b hb]
    exact List.Sorted.rel_get_of_lt hs h

/-- Interpolation toward the same slot with a larger relative offset gives
a larger value (sorted interval `A ≤ B`). -/
theorem interp_mono_same (A B d1 d2 : ℚ) (hAB : A ≤ B)
    (hd : 100 * d1 ≤ 20 * d2) :
    (A * (20 - d1) + B * d1) / 20 ≤ (A * (100 - d2) + B * d2) / 100 := by
  rw [div_le_div_iff₀ (by norm_num) (by norm_num)]
  nlinarith [mul_nonneg (sub_nonneg.mpr hAB)
    (by linarith : (0 : ℚ) ≤ 20 * d2 - 100 * d1)]

/-- A 20-denominator interpolation with offset at most 20 stays below the
right endpoint. -/
theorem interp_le_upper (A B d1 : ℚ) (hAB : A ≤ B) (hd : d1 ≤ 20) :
    (A * (20 - d1) + B * d1) / 20 ≤ B := by
  rw [div_le_iff₀ (by norm_num)]
  nlinarith [mul_nonneg (sub_nonneg.mpr hAB) (by linarith : (0 : ℚ) ≤ 20 - d1)]

/-- A 100-denominator interpolation with nonnegative offset stays above the
left endpoint. -/
theorem interp_ge_lower (A B d2 : ℚ) (hAB : A ≤ B) (hd : 0 ≤ d2) :
    A ≤ (A * (100 - d2) + B * d2) / 100 := by
  rw [le_div_iff₀ (by norm_num)]
  nlinarith [mul_nonneg (sub_nonneg.mpr hAB) hd]

/-- The exclusive-method p95 cut point is at most the p99 cut point on any
sorted sample of size at least 2: both are values of the same nondecreasing
piecewise-linear interpolant of the sorted data, taken at positions
`0.95*(n+1)` and `0.99*(n+1)`. -/
theorem cutPoint_p95_le_p99 (s : List ℚ) (hs : s.Sorted (· ≤ ·))
    (hl : 2 ≤ s.length) :
    cutPoint s 20 19 ≤ cutPoint s 100 99 := by
  simp only [cutPoint]
  set L := s.length with hLdef
  set r1 := 19 * (L + 1) / 20 with hr1def
  set r2 := 99 * (L + 1) / 100 with hr2def
  have h2r1 : 2 ≤ r1 := by omega
  have h2r2 : 2 ≤ r2 := by omega
  rw [if_neg (by omega : ¬ r1 < 1), if_neg (by omega : ¬ r2 < 1)]
  have hb1 : 20 * r1 ≤ 19 * (L + 1) := by omega
  have hb1b : 19 * (L + 1) < 20 * (r1 + 1) := by omega
  have hb2 : 100 * r2 ≤ 99 * (L + 1) := by omega
  have hr12 : r1 ≤ r2 := by omega
  have hLq : (0 : ℚ) ≤ (L : ℚ) := Nat.cast_nonneg L
  by_cases hc1 : L - 1 < r1
  · have hc2 : L - 1 < r2 := by omega
    rw [if_pos hc1, if_pos hc2]
    push_cast
    apply interp_mono_same
    · exact sorted_getD_mono s hs (L - 1 - 1) (L - 1) (by omega) (by omega)
    · have hsub : ((L - 1 : ℕ) : ℚ) = ((L - 1 : ℕ) : ℚ) := rfl
      linarith [hLq]
  · rw [if_neg hc1]
    have hr1L : r1 ≤ L - 1 := by omega
    by_cases hc2 : L - 1 < r2
    · rw [if_pos hc2]
      rcases eq_or_lt_of_le hr1L with heq | hlt
      · rw [heq]
        push_cast
        apply interp_mono_same
        · exact sorted_getD_mono s hs (L - 1 - 1) (L - 1) (by omega) (by omega)
        · linarith [hLq]
      · push_cast
        trans s.getD r1 0
        · apply interp_le_upper
          · exact sorted_getD_mono s hs (r1 - 1) r1 (by omega) (by omega)
          · have hq : (19 : ℚ) * ((L : ℚ) + 1) < 20 * ((r1 : ℚ) + 1) := by
              exact_mod_cast hb1b
            linarith
        trans s.getD (L - 1 - 1) 0
        · exact sorted_getD_mono s hs r1 (L - 1 - 1) (by omega) (by omega)
        · apply interp_ge_lower
          · exact sorted_getD_mono s hs (L - 1 - 1) (L - 1) (by omega) (by omega)
          · have hn : 100 * (L - 1) ≤ 99 * (L + 1) := by omega
            have hq : ((100 * (L - 1) : ℕ) : ℚ) ≤ ((99 * (L + 1) : ℕ) : ℚ) :=
              Nat.cast_le.mpr hn
            push_cast at hq
            linarith
    · rw [if_neg hc2]
      have hr2L : r2 ≤ L - 1 := by omega
      rcases eq_or_lt_of_le hr12 with heq | hlt
      · rw [heq]
        push_cast
        apply interp_mono_same
        · exact sorted_getD_mono s hs (r2 - 1) r2 (by omega) (by omega)
        · linarith [hLq]
      · push_cast
        trans s.getD r1 0
        · apply interp_le_upper
          · exact sorted_getD_mono s hs (r1 - 1) r1 (by omega) (by omega)
          · have hq : (19 : ℚ) * ((L : ℚ) + 1) < 20 * ((r1 : ℚ) + 1) := by
              exact_mod_cast hb1b
            linarith
        trans s.getD (r2 - 1) 0
        · exact sorted_getD_mono s hs r1 (r2 - 1) (by omega) (by omega)
        · apply interp_ge_lower
          · exact sorted_getD_mono s hs (r2 - 1) r2 (by omega) (by omega)
          · have hq : ((100 * r2 : ℕ) : ℚ) ≤ ((99 * (L + 1) : ℕ) : ℚ) :=
              Nat.cast_le.mpr hb2
            push_cast at hq
            linarith

/-- Claim C8: every record the Load Driver returns from at least two
successful samples satisfies `min ≤ avg ≤ max` and `p95 ≤ p99` (the latter
even though the exclusive quantile method can place both percentiles above
the maximum sample). -/
theorem claim_C8 (T : ℕ) (vb : Bool) (path : String) (bi : Option ℤ)
    (ex : ℕ → TimingRecord) (tt : ℚ) (M : PerformanceMetrics)
    (h : test_endpoint_concurrency T vb path bi ex tt = some M)
    (h2 : 2 ≤ M.successful_requests) :
    M.min_response_time ≤ M.avg_response_time ∧
    M.avg_response_time ≤ M.max_response_time ∧
    M.p95_response_time ≤ M.p99_response_time := by
  simp only [test_endpoint_concurrency] at h
  split at h
  · exact absurd h (by simp)
  · simp only [Option.some.injEq] at h
    subst h
    simp only at h2
    have hlen : 2 ≤ (successTimes T ex).length := by
      rw [successTimes, List.length_map]
      exact h2
    have hne : successTimes T ex ≠ [] :=
      List.ne_nil_of_length_pos (by omega)
    have h1lt : 1 < (successTimes T ex).length := by omega
    refine ⟨?_, ?_, ?_⟩
    · show (computeStats (successTimes T ex)).2.1 ≤
        (computeStats (successTimes T ex)).1
      rw [computeStats, if_neg hne]
      exact pyMin_le_pyMean _ hne
    · show (computeStats (successTimes T ex)).1 ≤
        (computeStats (successTimes T ex)).2.2.1
      rw [computeStats, if_neg hne]
      exact pyMean_le_pyMax _ hne
    · show (computeStats (successTimes T ex)).2.2.2.1 ≤
        (computeStats (successTimes T ex)).2.2.2.2
      rw [computeStats, if_neg hne]
      simp only [if_pos h1lt]
      rw [quantileExclusive, quantileExclusive]
      refine cutPoint_p95_le_p99 _ ?_ ?_
      · exact List.sorted_insertionSort _ _
      · rw [(List.perm_insertionSort _ _).length_eq]
        exact hlen

/-- Witness for claim C8 at the concrete three-sample run `exThree`:
38 ≤ 39.6 for the percentiles, 10 ≤ 20 ≤ 30 for min/avg/max. -/
theorem claim_C8_witness :
    test_endpoint_concurrency 3 false "/e" none exThree 1 = some runThree ∧
    2 ≤ runThree.successful_requests ∧
    (runThree.min_response_time ≤ runThree.avg_response_time ∧
     runThree.avg_response_time ≤ runThree.max_response_time ∧
     runThree.p95_response_time ≤ runThree.p99_response_time) := by
  exact ⟨runThree_eq, by norm_num [runThree],
    claim_C8 3 false "/e" none exThree 1 runThree runThree_eq
      (by norm_num [runThree])⟩
